import Mathlib

/-!
Verification of the asynchronous process-manager specification against the
repository's `MockProcessManager`
(src/anyenv/code_execution/mock_provider/provider.py).

Python dictionaries are modelled as association lists in insertion order
(Python dicts preserve insertion order; assignment to an existing key keeps
its position).  `datetime` timestamps are abstracted as natural numbers,
strings stand for both `str` and the byte counts of their ASCII content.
-/

/-- `d[k]` lookup on a Python dict modelled as an association list. -/
def pyGet {α : Type} : List (String × α) → String → Option α
  | [], _ => none
  | p :: rest, k => if p.1 == k then some p.2 else pyGet rest k

/-- `k in d` membership test on a Python dict. -/
def pyMem {α : Type} (d : List (String × α)) (k : String) : Bool :=
  d.any (fun p => p.1 == k)

/-- `list(d.keys())` in insertion order. -/
def pyKeys {α : Type} (d : List (String × α)) : List String :=
  d.map Prod.fst

/-- `d[k] = v`: replace in place when the key exists, else append. -/
def pyInsert {α : Type} (d : List (String × α)) (k : String) (v : α) :
    List (String × α) :=
  if pyMem d k then d.map (fun p => if p.1 == k then (p.1, v) else p)
  else d ++ [(k, v)]

/-- `del d[k]`: remove the binding for `k`. -/
def pyErase {α : Type} (d : List (String × α)) (k : String) :
    List (String × α) :=
  d.filter (fun p => !(p.1 == k))

/-- In-place mutation of the record stored under `k` (Python objects are
mutated through the reference held in the dict). -/
def pyUpdate {α : Type} (d : List (String × α)) (k : String) (f : α → α) :
    List (String × α) :=
  d.map (fun p => if p.1 == k then (p.1, f p.2) else p)

/-- Python `' '.join(args)`. -/
def pyJoin (sep : String) : List String → String
  | [] => ""
  | [x] => x
  | x :: y :: xs => x ++ sep ++ pyJoin sep (y :: xs)

/-- Python `str.strip()`: drop leading and trailing whitespace. -/
def pyStrip (s : String) : String :=
  String.mk
    (((s.toList.dropWhile Char.isWhitespace).reverse.dropWhile
        Char.isWhitespace).reverse)

/-- `anyenv.process_manager.models.ProcessOutput`: the immutable output
snapshot `{stdout, stderr, combined, truncated, exit_code, signal}`. -/
structure ProcessOutput where
  stdout : String
  stderr : String
  combined : String
  truncated : Bool := false
  exit_code : Option Int := none
  signal : Option Int := none
deriving Repr, DecidableEq

/-- `MockProcessInfo` dataclass from the mock provider. -/
structure MockProcessInfo where
  process_id : String
  command : String
  args : List String
  cwd : Option String := none
  env : List (String × String) := []
  created_at : Nat := 0
  output : Option ProcessOutput := none
  running : Bool := true
  exit_code : Option Int := none
deriving Repr, DecidableEq

/-- The state of a `MockProcessManager` instance: the constructor-supplied
default output and command table, plus the `_processes` dict. -/
structure MState where
  default_output : ProcessOutput
  command_outputs : List (String × ProcessOutput)
  processes : List (String × MockProcessInfo)
deriving Repr, DecidableEq

/-- `ProcessOutput(stdout="", stderr="", combined="", exit_code=0)`,
the fallback built in `MockProcessManager.__init__`. -/
def emptyOutput : ProcessOutput :=
  { stdout := "", stderr := "", combined := "", exit_code := some 0 }

/-- `MockProcessManager.__init__`: `default_output or ProcessOutput(...)`,
`command_outputs or \x7b\x7d`, empty `_processes` table.  (A `ProcessOutput`
instance and a non-empty dict are truthy; `None` and the empty dict fall
through to the default.) -/
def mkManager (default_output : Option ProcessOutput)
    (command_outputs : Option (List (String × ProcessOutput))) : MState :=
  { default_output := default_output.getD emptyOutput
    command_outputs := command_outputs.getD []
    processes := [] }

/-- The output chosen in `start_process`:
`self._command_outputs.get(full_command, self._command_outputs.get(command,
self._default_output))` with
`full_command = f"\x7bcommand\x7d \x7b' '.join(args)\x7d".strip()`. -/
def lookupOutput (s : MState) (command : String) (args : List String) :
    ProcessOutput :=
  let full_command := pyStrip (command ++ " " ++ pyJoin " " args)
  match pyGet s.command_outputs full_command with
  | some o => o
  | none =>
    match pyGet s.command_outputs command with
    | some o => o
    | none => s.default_output

/-- `MockProcessManager.start_process`.  The random hex of the generated id
and the `datetime.now()` timestamp are passed in as oracle arguments
(`hexPart`, `now`).  `output_limit` is accepted but never read, exactly as
in the source. -/
def start_process (s : MState) (command : String)
    (args : Option (List String)) (cwd : Option String)
    (env : Option (List (String × String))) ( output_limit : Option Nat)
    (hexPart : String) (now : Nat) : String × MState :=
  let process_id := "mock_" ++ hexPart
  let args := args.getD []
  let output := lookupOutput s command args
  let info : MockProcessInfo :=
    { process_id := process_id
      command := command
      args := args
      cwd := match cwd with
             | some c => if c = "" then none else some c
             | none => none
      env := env.getD []
      created_at := now
      output := some output
      running := true
      exit_code := none }
  (process_id, { s with processes := pyInsert s.processes process_id info })

/-- `f"Process \x7bprocess_id\x7d not found"`. -/
def notFound (process_id : String) : String :=
  "Process " ++ process_id ++ " not found"

/-- `MockProcessManager.get_output`: raise on unknown id, else
`proc.output or self._default_output`. -/
def get_output (s : MState) (process_id : String) :
    Except String ProcessOutput × MState :=
  match pyGet s.processes process_id with
  | none => (.error (notFound process_id), s)
  | some proc =>
    (.ok (match proc.output with
          | some o => o
          | none => s.default_output), s)

/-- `MockProcessManager.wait_for_exit`: raise on unknown id, else set
`running = False`, store `proc.output.exit_code if proc.output else 0`
into `proc.exit_code` and return `exit_code or 0`. -/
def wait_for_exit (s : MState) (process_id : String) :
    Except String Int × MState :=
  match pyGet s.processes process_id with
  | none => (.error (notFound process_id), s)
  | some proc =>
    let exit_code : Option Int :=
      match proc.output with
      | some o => o.exit_code
      | none => some 0
    let proc' := { proc with running := false, exit_code := exit_code }
    let ret : Int :=
      match exit_code with
      | none => 0
      | some v => if v = 0 then 0 else v
    (.ok ret,
     { s with processes := pyUpdate s.processes process_id (fun _ => proc') })

/-- `MockProcessManager.kill_process`: raise on unknown id, else set
`running = False` and `exit_code = 130`. -/
def kill_process (s : MState) (process_id : String) :
    Except String Unit × MState :=
  match pyGet s.processes process_id with
  | none => (.error (notFound process_id), s)
  | some proc =>
    let proc' := { proc with running := false, exit_code := some 130 }
    (.ok (),
     { s with processes := pyUpdate s.processes process_id (fun _ => proc') })

/-- `MockProcessManager.release_process`: raise on unknown id, else
`del self._processes[process_id]`. -/
def release_process (s : MState) (process_id : String) :
    Except String Unit × MState :=
  match pyGet s.processes process_id with
  | none => (.error (notFound process_id), s)
  | some _ => (.ok (), { s with processes := pyErase s.processes process_id })

/-- `MockProcessManager.list_processes`: `list(self._processes.keys())`. -/
def list_processes (s : MState) : List String :=
  pyKeys s.processes

/-- The dictionary returned by `get_process_info`, with exactly the seven
keys of the source (`created_at` is rendered with `.isoformat()` in Python;
here the abstract timestamp is returned directly). -/
structure ProcInfo where
  process_id : String
  command : String
  args : List String
  cwd : Option String
  created_at : Nat
  is_running : Bool
  exit_code : Option Int
deriving Repr, DecidableEq

/-- `MockProcessManager.get_process_info`: raise on unknown id, else the
read-only seven-field projection of the record. -/
def get_process_info (s : MState) (process_id : String) :
    Except String ProcInfo × MState :=
  match pyGet s.processes process_id with
  | none => (.error (notFound process_id), s)
  | some proc =>
    (.ok { process_id := proc.process_id
           command := proc.command
           args := proc.args
           cwd := proc.cwd
           created_at := proc.created_at
           is_running := proc.running
           exit_code := proc.exit_code }, s)

theorem pyGet_eq_none_iff {α : Type} (d : List (String × α)) (k : String) :
    pyGet d k = none ↔ pyMem d k = false := by
  induction d with
  | nil => simp [pyGet, pyMem]
  | cons p rest ih =>
    cases h : (p.1 == k) with
    | true => simp [pyGet, pyMem, h]
    | false =>
      simp only [pyGet, h, Bool.false_eq_true, if_false, pyMem, List.any_cons,
        Bool.false_or] at ih ⊢
      exact ih

theorem mem_pyKeys_iff {α : Type} (d : List (String × α)) (k : String) :
    k ∈ pyKeys d ↔ pyMem d k = true := by
  induction d with
  | nil => simp [pyKeys, pyMem]
  | cons p rest ih =>
    cases h : (p.1 == k) with
    | true =>
      have : p.1 = k := by simpa using h
      simp [pyKeys, pyMem, h, this]
    | false =>
      have hne : ¬ (k = p.1) := by
        intro hk
        simp [hk] at h
      simp only [pyKeys, List.map_cons, List.mem_cons, pyMem, List.any_cons, h,
        Bool.false_or] at ih ⊢
      simp [hne, ih]

theorem pyGet_replace {α : Type} (d : List (String × α)) (k : String) (v : α)
    (hm : pyMem d k = true) :
    pyGet (d.map (fun p => if p.1 == k then (p.1, v) else p)) k = some v := by
  induction d with
  | nil => simp [pyMem] at hm
  | cons p rest ih =>
    cases h : (p.1 == k) with
    | true => simp [pyGet, h]
    | false =>
      have hm' : pyMem rest k = true := by
        simpa [pyMem, List.any_cons, h] using hm
      simp only [List.map_cons, pyGet, h, Bool.false_eq_true, if_false]
      exact ih hm'

theorem pyGet_append_one {α : Type} (d : List (String × α)) (k : String) (v : α)
    (hm : pyMem d k = false) :
    pyGet (d ++ [(k, v)]) k = some v := by
  induction d with
  | nil => simp [pyGet]
  | cons p rest ih =>
    have h : (p.1 == k) = false := by
      cases h' : (p.1 == k) with
      | true => simp [pyMem, List.any_cons, h'] at hm
      | false => rfl
    have hm' : pyMem rest k = false := by
      simpa [pyMem, List.any_cons, h] using hm
    simp only [List.cons_append, pyGet, h, Bool.false_eq_true, if_false]
    exact ih hm'

theorem pyGet_pyInsert_self {α : Type} (d : List (String × α)) (k : String) (v : α) :
    pyGet (pyInsert d k v) k = some v := by
  unfold pyInsert
  cases hm : pyMem d k with
  | true => simpa [hm] using pyGet_replace d k v hm
  | false => simpa [hm] using pyGet_append_one d k v hm

theorem pyKeys_pyInsert {α : Type} (d : List (String × α)) (k : String) (v : α) :
    pyKeys (pyInsert d k v) = if pyMem d k then pyKeys d else pyKeys d ++ [k] := by
  unfold pyInsert
  cases hm : pyMem d k with
  | true =>
    simp only [if_true]
    unfold pyKeys
    rw [List.map_map]
    apply List.map_congr_left
    intro p _
    by_cases h : p.1 = k
    · simp [h]
    · simp [h]
  | false => simp [pyKeys]

theorem pyGet_pyErase_self {α : Type} (d : List (String × α)) (k : String) :
    pyGet (pyErase d k) k = none := by
  induction d with
  | nil => simp [pyErase, pyGet]
  | cons p rest ih =>
    cases h : (p.1 == k) with
    | true => simpa [pyErase, List.filter_cons, h] using ih
    | false =>
      simp only [pyErase, List.filter_cons, h, Bool.not_false, if_true, pyGet,
        Bool.false_eq_true, if_false]
      simpa [pyErase] using ih

theorem pyKeys_pyErase {α : Type} (d : List (String × α)) (k : String) :
    pyKeys (pyErase d k) = (pyKeys d).filter (fun x => !(x == k)) := by
  induction d with
  | nil => simp [pyErase, pyKeys]
  | cons p rest ih =>
    cases h : (p.1 == k) with
    | true =>
      simp only [pyErase, List.filter_cons, h, Bool.not_true, Bool.false_eq_true,
        if_false, pyKeys, List.map_cons]
      simpa [pyErase, pyKeys] using ih
    | false =>
      simp only [pyErase, List.filter_cons, h, Bool.not_false, if_true, pyKeys,
        List.map_cons]
      simp only [pyErase, pyKeys] at ih
      rw [ih]

theorem pyKeys_pyUpdate {α : Type} (d : List (String × α)) (k : String) (f : α → α) :
    pyKeys (pyUpdate d k f) = pyKeys d := by
  unfold pyUpdate pyKeys
  rw [List.map_map]
  apply List.map_congr_left
  intro p _
  by_cases h : p.1 = k
  · simp [h]
  · simp [h]

theorem pyGet_pyUpdate_self {α : Type} (d : List (String × α)) (k : String) (f : α → α) :
    pyGet (pyUpdate d k f) k = (pyGet d k).map f := by
  induction d with
  | nil => simp [pyUpdate, pyGet]
  | cons p rest ih =>
    cases h : (p.1 == k) with
    | true => simp [pyUpdate, pyGet, h]
    | false =>
      simp only [pyUpdate, List.map_cons, pyGet, h, Bool.false_eq_true, if_false]
      simpa [pyUpdate] using ih

theorem pyUpdate_pyUpdate_const {α : Type} (d : List (String × α)) (k : String)
    (a b : α) :
    pyUpdate (pyUpdate d k (fun _ => a)) k (fun _ => b) =
      pyUpdate d k (fun _ => b) := by
  unfold pyUpdate
  rw [List.map_map]
  apply List.map_congr_left
  intro p _
  by_cases h : p.1 = k
  · simp [Function.comp, h]
  · simp [Function.comp, h]

theorem filter_ne_of_not_mem (l : List String) (k : String) (h : k ∉ l) :
    l.filter (fun x => !(x == k)) = l := by
  induction l with
  | nil => simp
  | cons x rest ih =>
    have hx : (x == k) = false := by
      cases hx' : (x == k) with
      | true =>
        exact absurd (List.mem_cons_self x rest) (by simpa [show x = k by simpa using hx'] using h)
      | false => rfl
    have hrest : k ∉ rest := fun hk => h (List.mem_cons_of_mem _ hk)
    simp [List.filter_cons, hx, ih hrest]

theorem pyMem_of_pyGet_some {α : Type} {d : List (String × α)} {k : String}
    {v : α} (h : pyGet d k = some v) : pyMem d k = true := by
  cases hm : pyMem d k with
  | true => rfl
  | false => rw [(pyGet_eq_none_iff d k).mpr hm] at h; cases h

theorem pyMem_pyInsert_self {α : Type} (d : List (String × α)) (k : String)
    (v : α) : pyMem (pyInsert d k v) k = true :=
  pyMem_of_pyGet_some (pyGet_pyInsert_self d k v)

theorem not_mem_pyKeys_of_pyGet_none {α : Type} {d : List (String × α)}
    {k : String} (h : pyGet d k = none) : k ∉ pyKeys d := by
  intro hm
  have ht := (mem_pyKeys_iff d k).mp hm
  rw [(pyGet_eq_none_iff d k).mp h] at ht
  cases ht

/-- Claim C1: the id returned by `start_process` is in `list_processes`
immediately afterwards, and after `release_process` of that id it is absent
from `list_processes`. -/
theorem c1_start_then_release (s : MState) (command : String)
    (args : Option (List String)) (cwd : Option String)
    (env : Option (List (String × String))) (lim : Option Nat)
    (hexPart : String) (now : Nat) :
    ((start_process s command args cwd env lim hexPart now).1 ∈
      list_processes (start_process s command args cwd env lim hexPart now).2) ∧
    ∀ s2 : MState,
      (start_process s command args cwd env lim hexPart now).1 ∉
        list_processes ((release_process s2
          (start_process s command args cwd env lim hexPart now).1).2) := by
  have hpid : (start_process s command args cwd env lim hexPart now).1 =
      "mock_" ++ hexPart := rfl
  constructor
  · rw [hpid]
    show ("mock_" ++ hexPart) ∈ pyKeys (pyInsert s.processes ("mock_" ++ hexPart) _)
    exact (mem_pyKeys_iff _ _).mpr (pyMem_pyInsert_self _ _ _)
  · intro s2
    rw [hpid]
    cases hg : pyGet s2.processes ("mock_" ++ hexPart) with
    | none =>
      simp only [release_process, hg, list_processes]
      exact not_mem_pyKeys_of_pyGet_none hg
    | some p =>
      simp only [release_process, hg, list_processes]
      exact not_mem_pyKeys_of_pyGet_none (pyGet_pyErase_self _ _)

/-- Claim C2: every id-taking operation called with an id absent from the
`_processes` table returns the not-found error and leaves the manager state
unchanged. -/
theorem c2_unknown_id (s : MState) (pid : String)
    (h : pyGet s.processes pid = none) :
    get_output s pid = (.error (notFound pid), s) ∧
    wait_for_exit s pid = (.error (notFound pid), s) ∧
    kill_process s pid = (.error (notFound pid), s) ∧
    release_process s pid = (.error (notFound pid), s) ∧
    get_process_info s pid = (.error (notFound pid), s) := by
  refine ⟨?_, ?_, ?_, ?_, ?_⟩ <;>
    simp [get_output, wait_for_exit, kill_process, release_process,
      get_process_info, h]

/-- Witness for C2 at a concrete manager and id. -/
theorem c2_unknown_id_witness :
    get_output (mkManager none none) "nonexistent" =
      (.error (notFound "nonexistent"), mkManager none none) ∧
    wait_for_exit (mkManager none none) "nonexistent" =
      (.error (notFound "nonexistent"), mkManager none none) ∧
    kill_process (mkManager none none) "nonexistent" =
      (.error (notFound "nonexistent"), mkManager none none) ∧
    release_process (mkManager none none) "nonexistent" =
      (.error (notFound "nonexistent"), mkManager none none) ∧
    get_process_info (mkManager none none) "nonexistent" =
      (.error (notFound "nonexistent"), mkManager none none) :=
  c2_unknown_id (mkManager none none) "nonexistent" rfl

/-- Manager used in the C3 counterexample: command `c` registered with a
two-byte stdout and `truncated = False`. -/
def c3mgr : MState :=
  mkManager none (some [("c",
    { stdout := "xx", stderr := "", combined := "xx", exit_code := some 0 })])

/-- Counterexample to claim C3: a process started with `output_limit = 1`
whose registered stdout has 2 bytes; `get_output` reports the full 2-byte
stdout with `truncated = false`, because the mock ignores `output_limit`. -/
theorem c3_counterexample :
    ∃ o : ProcessOutput,
      (get_output (start_process c3mgr "c" none none none (some 1) "aa" 0).2
          "mock_aa").1 = .ok o ∧
      o.stdout.length > 1 ∧ o.truncated = false :=
  ⟨{ stdout := "xx", stderr := "", combined := "xx", exit_code := some 0 },
    by rfl, by decide, rfl⟩

/-- Claim C3 as amended: `start_process` ignores `output_limit` entirely,
so the output snapshot (its `truncated` flag and `stdout` included) is the
same whatever limit is passed. -/
theorem c3_amended_limit_ignored (s : MState) (command : String)
    (args : Option (List String)) (cwd : Option String)
    (env : Option (List (String × String))) (l1 l2 : Option Nat)
    (hexPart : String) (now : Nat) :
    start_process s command args cwd env l1 hexPart now =
      start_process s command args cwd env l2 hexPart now := rfl

def c4s2 : MState :=
  (wait_for_exit
    (start_process (mkManager none none) "c" none none none none "aa" 0).2
    "mock_aa").2

def c4s3 : MState := (kill_process c4s2 "mock_aa").2

/-- Counterexample to claim C4: after `wait_for_exit` has recorded
`exit_code = 0`, a later `kill_process` changes the stored code to `130`. -/
theorem c4_counterexample :
    (pyGet c4s2.processes "mock_aa").map (fun p => p.exit_code) =
      some (some 0) ∧
    (pyGet c4s3.processes "mock_aa").map (fun p => p.exit_code) =
      some (some 130) ∧
    (some (0 : Int) : Option Int) ≠ some 130 :=
  ⟨rfl, rfl, by decide⟩

/-- Claim C4 as amended: a repeated `wait_for_exit` leaves the record (and
hence the stored `exit_code`) unchanged, but `kill_process` overwrites the
stored `exit_code` of every tracked process with `130`, even after the
process has terminated. -/
theorem c4_amended_exit_code (s : MState) (pid : String) :
    (wait_for_exit ((wait_for_exit s pid).2) pid).2 = (wait_for_exit s pid).2 ∧
    (pyGet ((kill_process s pid).2).processes pid).map (fun p => p.exit_code) =
      (pyGet s.processes pid).map (fun _ => some 130) := by
  constructor
  · cases hg : pyGet s.processes pid with
    | none => simp [wait_for_exit, hg]
    | some proc =>
      simp [wait_for_exit, hg, pyGet_pyUpdate_self, pyUpdate_pyUpdate_const]
  · cases hg : pyGet s.processes pid with
    | none => simp [kill_process, hg]
    | some proc =>
      simp [kill_process, hg, pyGet_pyUpdate_self]

/-- Claim C5: `wait_for_exit` is idempotent — calling it again right after a
first call returns the same result (same exit code, same state). -/
theorem c5_wait_idempotent (s : MState) (pid : String) :
    wait_for_exit ((wait_for_exit s pid).2) pid = wait_for_exit s pid := by
  cases hg : pyGet s.processes pid with
  | none => simp [wait_for_exit, hg]
  | some proc =>
    simp [wait_for_exit, hg, pyGet_pyUpdate_self, pyUpdate_pyUpdate_const]

def c6s2 : MState :=
  (wait_for_exit
    (start_process
      (mkManager (some { stdout := "", stderr := "", combined := "",
                         exit_code := some 7 }) none)
      "c" none none none none "bb" 0).2
    "mock_bb").2

/-- Counterexample to claim C6: `kill_process` on a process that has already
exited (running = false, exit_code = 7) raises no error but rewrites the
record, changing the stored `exit_code` from 7 to 130. -/
theorem c6_counterexample :
    (pyGet c6s2.processes "mock_bb").map (fun p => p.running) = some false ∧
    (pyGet c6s2.processes "mock_bb").map (fun p => p.exit_code) =
      some (some 7) ∧
    (kill_process c6s2 "mock_bb").1 = .ok () ∧
    (pyGet ((kill_process c6s2 "mock_bb").2).processes "mock_bb").map
      (fun p => p.exit_code) = some (some 130) ∧
    pyGet ((kill_process c6s2 "mock_bb").2).processes "mock_bb" ≠
      pyGet c6s2.processes "mock_bb" :=
  ⟨rfl, rfl, rfl, rfl, by decide⟩

/-- Claim C6 as amended: `kill_process` on any tracked process (exited or
not) raises no error, and always stores `running = false` and
`exit_code = 130`, leaving the other fields unchanged; on an already-exited
process it therefore overwrites the stored exit code instead of being a
no-op. -/
theorem c6_amended_kill (s : MState) (pid : String) :
    (kill_process s pid).1 =
      (if pyMem s.processes pid then .ok () else .error (notFound pid)) ∧
    pyGet ((kill_process s pid).2).processes pid =
      (pyGet s.processes pid).map
        (fun p => { p with running := false, exit_code := some 130 }) := by
  cases hg : pyGet s.processes pid with
  | none =>
    have hm := (pyGet_eq_none_iff s.processes pid).mp hg
    simp [kill_process, hg, hm]
  | some proc =>
    have hm := pyMem_of_pyGet_some hg
    constructor
    · simp [kill_process, hg, hm]
    · simp [kill_process, hg, pyGet_pyUpdate_self]

/-- Counterexample to claim C8: `start_process` called with `cwd = ""`
(an empty, hence falsy, string) stores and reports `cwd = None`, not the
value passed. -/
theorem c8_counterexample :
    (get_process_info
        (start_process (mkManager none none) "c" none (some "") none none
          "cc" 5).2 "mock_cc").1 =
      .ok { process_id := "mock_cc", command := "c", args := [], cwd := none,
            created_at := 5, is_running := true, exit_code := none } ∧
    (none : Option String) ≠ some "" :=
  ⟨rfl, by decide⟩

/-- Claim C8 as amended: for a freshly started process, `get_process_info`
returns exactly the seven-field projection, with `process_id` the queried
id, `command` the passed command, `args` the passed list (or `[]` when
omitted), and `cwd` the passed string when it is non-empty, `None`
otherwise (Python truthiness); the call does not modify the state. -/
theorem c8_amended_info (s : MState) (command : String)
    (args : Option (List String)) (cwd : Option String)
    (env : Option (List (String × String))) (lim : Option Nat)
    (hexPart : String) (now : Nat) :
    get_process_info (start_process s command args cwd env lim hexPart now).2
        (start_process s command args cwd env lim hexPart now).1 =
      (.ok { process_id := "mock_" ++ hexPart
             command := command
             args := args.getD []
             cwd := match cwd with
                    | some c => if c = "" then none else some c
                    | none => none
             created_at := now
             is_running := true
             exit_code := none },
       (start_process s command args cwd env lim hexPart now).2) := by
  simp [get_process_info, start_process, pyGet_pyInsert_self]

/-- Claim C10: `get_output` of a freshly started process returns the output
selected by the constructor tables — the entry registered under the joined,
stripped command line when present, else the entry under the bare command,
else the default — and for a manager constructed with no registered outputs
it returns empty stdout/stderr/combined with exit code 0. -/
theorem c10_output_lookup (s : MState) (command : String)
    (args : Option (List String)) (cwd : Option String)
    (env : Option (List (String × String))) (lim : Option Nat)
    (hexPart : String) (now : Nat) :
    (get_output (start_process s command args cwd env lim hexPart now).2
        (start_process s command args cwd env lim hexPart now).1).1 =
      .ok (lookupOutput s command (args.getD [])) ∧
    (get_output
        (start_process (mkManager none none) command args cwd env lim hexPart
          now).2
        (start_process (mkManager none none) command args cwd env lim hexPart
          now).1).1 =
      .ok { stdout := "", stderr := "", combined := "", truncated := false,
            exit_code := some 0, signal := none } := by
  constructor
  · simp [get_output, start_process, pyGet_pyInsert_self]
  · simp [get_output, start_process, pyGet_pyInsert_self, lookupOutput,
      mkManager, emptyOutput, pyGet]

/-- Modelled from the spec: the real `ProcessManager`'s `ProcessRecord`
(module `anyenv/process_manager`, absent from the sources; only its tests
are present) — identity and launch parameters, per-stream byte buffers with
a truncation flag, and the exit status fields of spec section 3. -/
structure SpecRecord where
  command : String
  args : List String := []
  cwd : Option String := none
  env : List (String × String) := []
  created_at : Nat := 0
  output_limit : Option Nat := none
  stdout_buf : String := ""
  stderr_buf : String := ""
  combined_buf : String := ""
  truncated : Bool := false
  exit_code : Option Int := none
  signal : Option Int := none
deriving Repr, DecidableEq

/-- Modelled from the spec: the real `ProcessManager`'s state — the
`processes` table of ProcessRecords and the `output_tasks` table of
OutputCollector task handles (handles abstracted as numbers). -/
structure SpecState where
  processes : List (String × SpecRecord) := []
  output_tasks : List (String × Nat) := []
deriving Repr, DecidableEq

/-- Modelled from the spec: capped append of section 4.2 — once appending
would exceed `output_limit` the excess is discarded, the buffer is frozen
at the cap and the overflow is reported. -/
def cappedAppend (buf chunk : String) (limit : Option Nat) : String × Bool :=
  match limit with
  | none => (buf ++ chunk, false)
  | some l =>
    if buf.length + chunk.length ≤ l then (buf ++ chunk, false)
    else ((buf ++ chunk).take l, true)

/-- Modelled from the spec: `start_process` of the real manager.  Spawn
failure (`spawnOk = false`) raises an OS spawn error and creates no record;
on success the fresh id is registered in `processes` and `output_tasks`
and returned. -/
def spec_start (s : SpecState) (spawnOk : Bool) (pid : String) (handle : Nat)
    (command : String) (args : List String) (cwd : Option String)
    (output_limit : Option Nat) (now : Nat) : Except String String × SpecState :=
  if spawnOk then
    (.ok pid,
     { processes := pyInsert s.processes pid
         { command := command, args := args, cwd := cwd, created_at := now,
           output_limit := output_limit }
       output_tasks := pyInsert s.output_tasks pid handle })
  else (.error "Failed to start process", s)

/-- Modelled from the spec: `release_process` — not-found error on an
unknown id, else cancel the collector and remove the id from both tables. -/
def spec_release (s : SpecState) (pid : String) : Except String Unit × SpecState :=
  match pyGet s.processes pid with
  | none => (.error (notFound pid), s)
  | some _ =>
    (.ok (),
     { processes := pyErase s.processes pid
       output_tasks := pyErase s.output_tasks pid })

/-- Modelled from the spec: `kill_process` — not-found error on an unknown
id, else deliver the termination signal, recording it on the record. -/
def spec_kill (s : SpecState) (pid : String) (sig : Int) :
    Except String Unit × SpecState :=
  match pyGet s.processes pid with
  | none => (.error (notFound pid), s)
  | some r =>
    (.ok (),
     { s with processes :=
         pyUpdate s.processes pid (fun _ => { r with signal := some sig }) })

/-- Modelled from the spec: `wait_for_exit` — not-found error on an unknown
id; records the exit code observed from the OS (`osCode`) exactly once and
returns the stored code immediately on later calls. -/
def spec_wait (s : SpecState) (pid : String) (osCode : Int) :
    Except String Int × SpecState :=
  match pyGet s.processes pid with
  | none => (.error (notFound pid), s)
  | some r =>
    match r.exit_code with
    | some c => (.ok c, s)
    | none =>
      (.ok osCode,
       { s with processes :=
           pyUpdate s.processes pid (fun _ => { r with exit_code := some osCode }) })

/-- Modelled from the spec: the OutputCollector forwarding one pair of
chunks to `add_output`, appending to the per-stream and combined buffers
under the truncation cap. -/
def spec_add_output (s : SpecState) (pid : String) (out err : String) :
    SpecState :=
  match pyGet s.processes pid with
  | none => s
  | some r =>
    let sb := cappedAppend r.stdout_buf out r.output_limit
    let eb := cappedAppend r.stderr_buf err r.output_limit
    let cb := cappedAppend r.combined_buf (out ++ err) r.output_limit
    { s with processes :=
        pyUpdate s.processes pid (fun _ =>
          { r with stdout_buf := sb.1, stderr_buf := eb.1,
                   combined_buf := cb.1,
                   truncated := r.truncated || sb.2 || eb.2 || cb.2 }) }

/-- Modelled from the spec: `list_processes` — all currently tracked ids. -/
def spec_list (s : SpecState) : List String :=
  pyKeys s.processes

/-- One per-id pass of `cleanup`: kill best-effort (the error of
`spec_kill`, if any, is suppressed), then release. -/
def cleanupStep (st : SpecState) (pid : String) : SpecState :=
  (spec_release (spec_kill st pid 9).2 pid).2

/-- Modelled from the spec: `cleanup` — for every tracked id, kill the
process (best-effort, per-process errors suppressed) and then release it. -/
def spec_cleanup (s : SpecState) : SpecState :=
  (spec_list s).foldl cleanupStep s

/-- One caller-visible operation of the spec-modelled manager; read-only
operations (`get_output`, `get_process_info`, `list_processes`) do not
change the state and are omitted. -/
inductive SpecOp where
  | startP (spawnOk : Bool) (pid : String) (handle : Nat) (command : String)
      (args : List String) (cwd : Option String) (output_limit : Option Nat)
      (now : Nat)
  | releaseP (pid : String)
  | killP (pid : String) (sig : Int)
  | waitP (pid : String) (osCode : Int)
  | collectP (pid : String) (out err : String)
  | cleanupP
deriving Repr

/-- State transition of the spec-modelled manager. -/
def spec_step (s : SpecState) : SpecOp → SpecState
  | .startP ok pid h c a w l n => (spec_start s ok pid h c a w l n).2
  | .releaseP pid => (spec_release s pid).2
  | .killP pid g => (spec_kill s pid g).2
  | .waitP pid c => (spec_wait s pid c).2
  | .collectP pid o e => spec_add_output s pid o e
  | .cleanupP => spec_cleanup s

/-- The manager state reached from a fresh manager by a sequence of
operations. -/
def spec_run (ops : List SpecOp) : SpecState :=
  ops.foldl spec_step {}

/-- The two tables hold exactly the same ids. -/
def keysAligned (s : SpecState) : Prop :=
  pyKeys s.processes = pyKeys s.output_tasks

theorem pyMem_eq_any_keys {α : Type} (d : List (String × α)) (k : String) :
    pyMem d k = (pyKeys d).any (fun x => x == k) := by
  induction d with
  | nil => rfl
  | cons p rest ih => simp [pyMem, pyKeys, List.any_cons] at ih ⊢; rw [ih]

theorem pyMem_congr {α β : Type} {d1 : List (String × α)}
    {d2 : List (String × β)} (h : pyKeys d1 = pyKeys d2) (k : String) :
    pyMem d1 k = pyMem d2 k := by
  rw [pyMem_eq_any_keys, pyMem_eq_any_keys, h]

theorem contains_of_mem (l : List String) (a : String) (h : a ∈ l) :
    l.contains a = true := by
  simpa using h

theorem filter_not_contains_self (l : List String) :
    l.filter (fun x => !(l.contains x)) = [] := by
  rw [List.filter_eq_nil_iff]
  intro a ha
  simpa using ha

theorem spec_kill_tables (s : SpecState) (pid : String) (g : Int) :
    pyKeys (spec_kill s pid g).2.processes = pyKeys s.processes ∧
    (spec_kill s pid g).2.output_tasks = s.output_tasks := by
  cases hg : pyGet s.processes pid with
  | none => simp [spec_kill, hg]
  | some r => simp [spec_kill, hg, pyKeys_pyUpdate]

theorem spec_wait_tables (s : SpecState) (pid : String) (c : Int) :
    pyKeys (spec_wait s pid c).2.processes = pyKeys s.processes ∧
    (spec_wait s pid c).2.output_tasks = s.output_tasks := by
  cases hg : pyGet s.processes pid with
  | none => simp [spec_wait, hg]
  | some r =>
    cases he : r.exit_code with
    | none => simp [spec_wait, hg, he, pyKeys_pyUpdate]
    | some c0 => simp [spec_wait, hg, he]

theorem spec_add_output_tables (s : SpecState) (pid : String) (o e : String) :
    pyKeys (spec_add_output s pid o e).processes = pyKeys s.processes ∧
    (spec_add_output s pid o e).output_tasks = s.output_tasks := by
  cases hg : pyGet s.processes pid with
  | none => simp [spec_add_output, hg]
  | some r => simp [spec_add_output, hg, pyKeys_pyUpdate]

theorem spec_release_keys (s : SpecState) (pid : String) (h : keysAligned s) :
    pyKeys (spec_release s pid).2.processes =
      (pyKeys s.processes).filter (fun x => !(x == pid)) ∧
    pyKeys (spec_release s pid).2.output_tasks =
      (pyKeys s.output_tasks).filter (fun x => !(x == pid)) := by
  cases hg : pyGet s.processes pid with
  | none =>
    have hp : pid ∉ pyKeys s.processes := not_mem_pyKeys_of_pyGet_none hg
    have ht : pid ∉ pyKeys s.output_tasks := by rw [← h]; exact hp
    simp [spec_release, hg, filter_ne_of_not_mem _ _ hp,
      filter_ne_of_not_mem _ _ ht]
  | some r => simp [spec_release, hg, pyKeys_pyErase]

theorem cleanupStep_keys (st : SpecState) (pid : String) (h : keysAligned st) :
    pyKeys (cleanupStep st pid).processes =
      (pyKeys st.processes).filter (fun x => !(x == pid)) ∧
    pyKeys (cleanupStep st pid).output_tasks =
      (pyKeys st.output_tasks).filter (fun x => !(x == pid)) := by
  have hk := spec_kill_tables st pid 9
  have h1 : keysAligned (spec_kill st pid 9).2 := by
    unfold keysAligned
    rw [hk.1, hk.2]
    exact h
  have hr := spec_release_keys (spec_kill st pid 9).2 pid h1
  unfold cleanupStep
  constructor
  · rw [hr.1, hk.1]
  · rw [hr.2, hk.2]

theorem keysAligned_cleanupStep (st : SpecState) (pid : String)
    (h : keysAligned st) : keysAligned (cleanupStep st pid) := by
  have hc := cleanupStep_keys st pid h
  unfold keysAligned
  rw [hc.1, hc.2, h]

theorem cleanup_go (L : List String) (st : SpecState) (h : keysAligned st) :
    pyKeys ((L.foldl cleanupStep st).processes) =
      (pyKeys st.processes).filter (fun x => !(L.contains x)) ∧
    pyKeys ((L.foldl cleanupStep st).output_tasks) =
      (pyKeys st.output_tasks).filter (fun x => !(L.contains x)) := by
  induction L generalizing st with
  | nil => simp
  | cons x rest ih =>
    have hstep := cleanupStep_keys st x h
    have halign := keysAligned_cleanupStep st x h
    have hrest := ih (cleanupStep st x) halign
    constructor
    · rw [List.foldl_cons, hrest.1, hstep.1, List.filter_filter]
      apply List.filter_congr
      intro a _
      by_cases hax : a = x <;> simp [hax, List.contains_cons, Bool.and_comm]
    · rw [List.foldl_cons, hrest.2, hstep.2, List.filter_filter]
      apply List.filter_congr
      intro a _
      by_cases hax : a = x <;> simp [hax, List.contains_cons, Bool.and_comm]

theorem spec_cleanup_empty (s : SpecState) (h : keysAligned s) :
    (spec_cleanup s).processes = [] ∧ (spec_cleanup s).output_tasks = [] := by
  have hg := cleanup_go (spec_list s) s h
  have hp : pyKeys (spec_cleanup s).processes = [] := by
    unfold spec_cleanup
    rw [hg.1]
    exact filter_not_contains_self _
  have ht : pyKeys (spec_cleanup s).output_tasks = [] := by
    unfold spec_cleanup
    rw [hg.2]
    unfold keysAligned at h
    unfold spec_list
    rw [← h]
    exact filter_not_contains_self _
  exact ⟨List.map_eq_nil_iff.mp hp, List.map_eq_nil_iff.mp ht⟩

theorem keysAligned_step (s : SpecState) (op : SpecOp) (h : keysAligned s) :
    keysAligned (spec_step s op) := by
  cases op with
  | startP ok pid hd c a w l n =>
    cases ok with
    | false => simpa [spec_step, spec_start] using h
    | true =>
      unfold keysAligned spec_step spec_start
      simp only [if_true]
      rw [pyKeys_pyInsert, pyKeys_pyInsert, pyMem_congr h pid, h]
  | releaseP pid =>
    have hr := spec_release_keys s pid h
    unfold keysAligned
    rw [show spec_step s (.releaseP pid) = (spec_release s pid).2 from rfl,
      hr.1, hr.2, h]
  | killP pid g =>
    have hk := spec_kill_tables s pid g
    unfold keysAligned
    rw [show spec_step s (.killP pid g) = (spec_kill s pid g).2 from rfl,
      hk.1, hk.2, h]
  | waitP pid c =>
    have hw := spec_wait_tables s pid c
    unfold keysAligned
    rw [show spec_step s (.waitP pid c) = (spec_wait s pid c).2 from rfl,
      hw.1, hw.2, h]
  | collectP pid o e =>
    have ha := spec_add_output_tables s pid o e
    unfold keysAligned
    rw [show spec_step s (.collectP pid o e) = spec_add_output s pid o e from rfl,
      ha.1, ha.2, h]
  | cleanupP =>
    have hc := spec_cleanup_empty s h
    unfold keysAligned
    rw [show spec_step s .cleanupP = spec_cleanup s from rfl, hc.1, hc.2]
    rfl

theorem keysAligned_foldl (ops : List SpecOp) (s : SpecState)
    (h : keysAligned s) : keysAligned (ops.foldl spec_step s) := by
  induction ops generalizing s with
  | nil => exact h
  | cons op rest ih => exact ih _ (keysAligned_step s op h)

theorem keysAligned_run (ops : List SpecOp) : keysAligned (spec_run ops) :=
  keysAligned_foldl ops {} rfl

/-- Claim C7: `cleanup()` kills (best-effort) and releases every tracked
process; on any reachable manager state it leaves both tables empty, and
`list_processes` afterwards returns the empty sequence. -/
theorem c7_cleanup_empties (ops : List SpecOp) :
    (spec_cleanup (spec_run ops)).processes = [] ∧
    (spec_cleanup (spec_run ops)).output_tasks = [] ∧
    spec_list (spec_cleanup (spec_run ops)) = [] := by
  have h := spec_cleanup_empty (spec_run ops) (keysAligned_run ops)
  refine ⟨h.1, h.2, ?_⟩
  unfold spec_list
  rw [h.1]
  rfl

/-- Claim C9: on every reachable state an id is in `processes` iff it is in
`output_tasks`; a successful `start_process` registers the id in both
tables, `release_process` leaves it in neither, and the remaining mutating
operations (kill, wait, output collection) change the key set of neither
table. -/
theorem c9_tables_iff (ops : List SpecOp) (pid : String) :
    (pid ∈ pyKeys (spec_run ops).processes ↔
      pid ∈ pyKeys (spec_run ops).output_tasks) ∧
    (∀ (s : SpecState) (handle : Nat) (command : String) (args : List String)
        (cwd : Option String) (lim : Option Nat) (now : Nat),
      pid ∈ pyKeys
          (spec_start s true pid handle command args cwd lim now).2.processes ∧
      pid ∈ pyKeys
          (spec_start s true pid handle command args cwd lim now).2.output_tasks) ∧
    (pid ∉ pyKeys (spec_release (spec_run ops) pid).2.processes ∧
     pid ∉ pyKeys (spec_release (spec_run ops) pid).2.output_tasks) ∧
    (∀ (g c : Int) (o e : String),
      pyKeys (spec_kill (spec_run ops) pid g).2.processes =
        pyKeys (spec_run ops).processes ∧
      (spec_kill (spec_run ops) pid g).2.output_tasks =
        (spec_run ops).output_tasks ∧
      pyKeys (spec_wait (spec_run ops) pid c).2.processes =
        pyKeys (spec_run ops).processes ∧
      (spec_wait (spec_run ops) pid c).2.output_tasks =
        (spec_run ops).output_tasks ∧
      pyKeys (spec_add_output (spec_run ops) pid o e).processes =
        pyKeys (spec_run ops).processes ∧
      (spec_add_output (spec_run ops) pid o e).output_tasks =
        (spec_run ops).output_tasks) := by
  have halign : pyKeys (spec_run ops).processes =
      pyKeys (spec_run ops).output_tasks := keysAligned_run ops
  refine ⟨by rw [halign], ?_, ?_, ?_⟩
  · intro s handle command args cwd lim now
    constructor
    · simp only [spec_start, if_true]
      exact (mem_pyKeys_iff _ _).mpr (pyMem_pyInsert_self _ _ _)
    · simp only [spec_start, if_true]
      exact (mem_pyKeys_iff _ _).mpr (pyMem_pyInsert_self _ _ _)
  · cases hg : pyGet (spec_run ops).processes pid with
    | none =>
      have hp : pid ∉ pyKeys (spec_run ops).processes :=
        not_mem_pyKeys_of_pyGet_none hg
      have ht : pid ∉ pyKeys (spec_run ops).output_tasks := by
        rw [← halign]; exact hp
      simp only [spec_release, hg]
      exact ⟨hp, ht⟩
    | some r =>
      simp only [spec_release, hg]
      exact ⟨not_mem_pyKeys_of_pyGet_none (pyGet_pyErase_self _ _),
        not_mem_pyKeys_of_pyGet_none (pyGet_pyErase_self _ _)⟩
  · intro g c o e
    have hk := spec_kill_tables (spec_run ops) pid g
    have hw := spec_wait_tables (spec_run ops) pid c
    have ha := spec_add_output_tables (spec_run ops) pid o e
    exact ⟨hk.1, hk.2, hw.1, hw.2, ha.1, ha.2⟩
